import Mathlib

/-!
Shallow embedding of the ChatScraper capture engine (content script of the
KripTik extension).  The DOM is modelled as a tree of element/text nodes;
the CSS selectors used by the scraper are modelled by a small parser and
matcher covering exactly the selector forms appearing in the source
(tag, `.class`, `[attr]`, `[attr="v"]`, `[attr*="v"]`, optional ` i` flag,
descendant chains and comma lists).  JavaScript numbers that only feed the
progress formulas are modelled as `ℚ`; DOM metrics (`scrollHeight`,
`scrollTop`, `clientHeight`) are modelled as `Int`.  JavaScript string
operations (`slice`, `trim`, `includes`, `toLowerCase`, `split`) are
re-implemented over `List Char`; `charCodeAt` is modelled by the code
point, which agrees with UTF-16 code units on the inputs considered.
Host-page behaviour that the scraper only observes (scroll metrics,
load-more clicks, visibility) is supplied by an environment oracle, one
observation per loop iteration, exactly at the points where the source
reads the live page.
-/

/-- JavaScript-style whitespace test for the characters relevant here. -/
def isJsSpace (c : Char) : Bool :=
  c = ' ' || c = '\t' || c = '\n' || c = '\r' || c = '\x0b' || c = '\x0c'

/-- Model of `String.prototype.trim`. -/
def jsTrim (s : String) : String :=
  String.mk (((s.data.dropWhile isJsSpace).reverse.dropWhile isJsSpace).reverse)

/-- Model of `str.slice(0, n)`. -/
def jsSlice (s : String) (n : Nat) : String :=
  String.mk (s.data.take n)

/-- Tests whether `pre` is a prefix of `l`. -/
def listStartsWith : List Char → List Char → Bool
  | _, [] => true
  | [], _ :: _ => false
  | a :: as, b :: bs => a = b && listStartsWith as bs

/-- Helper for `jsIncludes`: does `pat` occur in `as` as a contiguous run? -/
def containsAux : List Char → List Char → Bool
  | [], pat => pat.isEmpty
  | a :: as, pat => listStartsWith (a :: as) pat || containsAux as pat

/-- Model of `haystack.includes(needle)`. -/
def jsIncludes (haystack pat : String) : Bool :=
  containsAux haystack.data pat.data

/-- Model of `str.toLowerCase()` (character-wise lowering; the inputs
considered are ASCII). -/
def jsToLower (s : String) : String :=
  String.mk (s.data.map Char.toLower)

/-- Model of `a || b` on nullable strings: JavaScript treats both `null`
and the empty string as falsy. -/
def jsOr (a b : Option String) : Option String :=
  match a with
  | some s => if s = "" then b else some s
  | none => b

/-- Model of `a || d` where `d` is a non-null default string. -/
def jsOrD (a : Option String) (d : String) : String :=
  match a with
  | some s => if s = "" then d else s
  | none => d

/-- Truthiness of a nullable string. -/
def strTruthy : Option String → Bool
  | some s => s ≠ ""
  | none => false

/-- Splits a string on the character `sep` (model of `str.split(sep)`). -/
def splitOnCharAux (sep : Char) : List Char → List Char → List String
  | [], acc => [String.mk acc.reverse]
  | c :: cs, acc =>
    if c = sep then String.mk acc.reverse :: splitOnCharAux sep cs []
    else splitOnCharAux sep cs (c :: acc)

/-- Splits a string on the character `sep`. -/
def splitOnChar (sep : Char) (s : String) : List String :=
  splitOnCharAux sep s.data []

/-- Whitespace-separated tokens of a class attribute value. -/
def classTokens (s : String) : List String :=
  ((splitOnChar ' ' s).map jsTrim).filter (fun t => t ≠ "")

/- ### Stable Hasher (source: `hashString`, `hashElement`) -/

/-- Reduction of an integer to the 32-bit signed value with the same
residue modulo `2^32`: the effect of JavaScript's `x & x` (`ToInt32`). -/
def toInt32 (x : Int) : Int :=
  let m := x % 4294967296
  if m < 2147483648 then m else m - 4294967296

/-- One step of the rolling hash: `hash = ((hash << 5) - hash) + char`
followed by `hash = hash & hash`, as in `hashString`.  The shift itself
truncates to 32 bits before the subtraction, hence the inner `toInt32`. -/
def hashStep (h : Int) (c : Char) : Int :=
  toInt32 (toInt32 (h * 32) - h + (c.toNat : Int))

/-- Hexadecimal rendering of an integer as produced by JavaScript's
`Number.prototype.toString(16)`: lowercase digits, a leading `-` for
negative values. -/
def intToHexJS (i : Int) : String :=
  if i < 0 then "-" ++ String.mk (Nat.toDigits 16 (-i).toNat)
  else String.mk (Nat.toDigits 16 i.toNat)

/-- Model of `hashString`. -/
def hashString (str : String) : String :=
  intToHexJS (str.data.foldl hashStep 0)

/-- Model of the non-element branch of `hashElement` (used by
`processMessages` on `{ textContent: msg.content }` wrappers):
hash of `textContent.slice(0, 300).trim()`. -/
def hashTextContent (s : String) : String :=
  hashString (jsTrim (jsSlice s 300))

/- ### DOM model -/

/-- Rendered DOM nodes: elements with a tag, attribute list and children,
or text nodes. -/
inductive DomNode where
  | elem (tag : String) (attrs : List (String × String)) (children : List DomNode)
  | text (s : String)

/-- Model of `getAttribute`: `none` plays the role of `null`. -/
def getAttr (n : DomNode) (name : String) : Option String :=
  match n with
  | .elem _ attrs _ => (attrs.find? (fun p => p.1 = name)).map (·.2)
  | .text _ => none

/-- Model of `el.className` (the `class` attribute, `""` when absent). -/
def domClassName (n : DomNode) : String :=
  jsOrD (getAttr n "class") ""

mutual

/-- Model of `el.textContent`: concatenation of all text descendants. -/
def textContent : DomNode → String
  | .text s => s
  | .elem _ _ cs => textContentList cs

/-- `textContent` over a child list. -/
def textContentList : List DomNode → String
  | [] => ""
  | c :: cs => textContent c ++ textContentList cs

end

mutual

/-- Simple serialization of a node, standing in for its HTML rendering
(used only for the debug-only `rawHtml` payload; entity escaping is
irrelevant here and omitted). -/
def serializeNode : DomNode → String
  | .text s => s
  | .elem tag attrs cs =>
      "<" ++ tag ++ (attrs.foldl (fun acc p => acc ++ " " ++ p.1 ++ "=\x22" ++ p.2 ++ "\x22") "")
        ++ ">" ++ serializeList cs ++ "</" ++ tag ++ ">"

/-- Serialization of a child list. -/
def serializeList : List DomNode → String
  | [] => ""
  | c :: cs => serializeNode c ++ serializeList cs

end

/-- Model of `el.innerHTML`: serialization of the children. -/
def innerHTML (n : DomNode) : String :=
  match n with
  | .text _ => ""
  | .elem _ _ cs => serializeList cs

/- ### CSS selector subset -/

/-- Attribute tests appearing in the source's selectors: `[a]`, `[a="v"]`,
`[a*="v"]` (with optional case-insensitive flag). -/
inductive AttrTest where
  | present
  | equalsVal (v : String)
  | containsVal (v : String) (ci : Bool)

/-- One attribute selector. -/
structure AttrSel where
  name : String
  test : AttrTest

/-- A compound selector: optional tag, class requirements, attribute
requirements, all of which must hold on a single element. -/
structure CompoundSel where
  tag : Option String
  classes : List String
  attrSels : List AttrSel

/-- Characters allowed in identifiers (tags, class names, attribute names). -/
def isIdentChar (c : Char) : Bool :=
  c.isAlpha || c.isDigit || c = '-' || c = '_'

/-- Reads a maximal identifier off the front of the character list. -/
def takeIdentAux : List Char → List Char → (List Char × List Char)
  | [], acc => (acc.reverse, [])
  | c :: cs, acc =>
    if isIdentChar c then takeIdentAux cs (c :: acc) else (acc.reverse, c :: cs)

/-- Reads a maximal identifier, returning it as a string. -/
def takeIdent (cs : List Char) : String × List Char :=
  let p := takeIdentAux cs []
  (String.mk p.1, p.2)

/-- Reads a double-quoted value (opening quote already consumed). -/
def parseQuotedAux : List Char → List Char → Option (String × List Char)
  | [], _ => none
  | c :: cs, acc =>
    if c = '\x22' then some (String.mk acc.reverse, cs) else parseQuotedAux cs (c :: acc)

/-- Drops leading spaces. -/
def skipSpaces (cs : List Char) : List Char :=
  cs.dropWhile (fun c => c = ' ')

/-- Parses an attribute selector after the opening `[`. -/
def parseAttrSel (cs : List Char) : Option (AttrSel × List Char) :=
  let (name, r) := takeIdent cs
  if name = "" then none
  else
    match r with
    | ']' :: r' => some (⟨name, .present⟩, r')
    | '=' :: '\x22' :: r' =>
      match parseQuotedAux r' [] with
      | some (v, r'') =>
        match skipSpaces r'' with
        | ']' :: r3 => some (⟨name, .equalsVal v⟩, r3)
        | _ => none
      | none => none
    | '*' :: '=' :: '\x22' :: r' =>
      match parseQuotedAux r' [] with
      | some (v, r'') =>
        match skipSpaces r'' with
        | ']' :: r3 => some (⟨name, .containsVal v false⟩, r3)
        | 'i' :: r3 =>
          match skipSpaces r3 with
          | ']' :: r4 => some (⟨name, .containsVal v true⟩, r4)
          | _ => none
        | _ => none
      | none => none
    | _ => none

/-- Parses the `.class` / `[attr...]` parts of a compound selector. -/
def parseCompoundAux : Nat → List Char → CompoundSel → Option (CompoundSel × List Char)
  | 0, _, _ => none
  | _ + 1, [], acc => some (acc, [])
  | fuel + 1, c :: cs, acc =>
    if c = '.' then
      let (id, r) := takeIdent cs
      if id = "" then none
      else parseCompoundAux fuel r { acc with classes := acc.classes ++ [id] }
    else if c = '[' then
      match parseAttrSel cs with
      | some (a, r) => parseCompoundAux fuel r { acc with attrSels := acc.attrSels ++ [a] }
      | none => none
    else some (acc, c :: cs)

/-- Parses a full compound selector (tag first when present). -/
def parseCompound (fuel : Nat) (cs : List Char) : Option (CompoundSel × List Char) :=
  match cs with
  | c :: _ =>
    if c.isAlpha then
      let (t, r) := takeIdent cs
      parseCompoundAux fuel r ⟨some t, [], []⟩
    else
      match parseCompoundAux fuel cs ⟨none, [], []⟩ with
      | some (comp, r) =>
        -- a compound must contain at least one simple selector
        if comp.classes.isEmpty && comp.attrSels.isEmpty then none else some (comp, r)
      | none => none
  | [] => none

/-- Parses a descendant chain (compounds separated by spaces). -/
def parseChainAux : Nat → List Char → List CompoundSel → Option (List CompoundSel × List Char)
  | 0, _, _ => none
  | _ + 1, [], acc => some (acc, [])
  | fuel + 1, c :: cs, acc =>
    match skipSpaces (c :: cs) with
    | [] => some (acc, [])
    | ',' :: r => some (acc, ',' :: r)
    | r =>
      match parseCompound fuel r with
      | some (comp, r') => parseChainAux fuel r' (acc ++ [comp])
      | none => none

/-- Parses a comma-separated selector list. -/
def parseSelectorAux : Nat → List Char → Option (List (List CompoundSel))
  | 0, _ => none
  | fuel + 1, cs =>
    match parseChainAux fuel cs [] with
    | some ([], _) => none
    | some (chain, rest) =>
      match skipSpaces rest with
      | [] => some [chain]
      | ',' :: r =>
        match parseSelectorAux fuel r with
        | some chains => some (chain :: chains)
        | none => none
      | _ => none
    | none => none

/-- Parses a selector string into comma-alternatives of descendant chains;
`none` models a selector the engine rejects. -/
def parseSelector (s : String) : Option (List (List CompoundSel)) :=
  parseSelectorAux (s.data.length + 2) s.data

/-- Does an attribute value satisfy an attribute test?  An empty operand of
`*=` matches nothing, as in CSS. -/
def matchAttrTest (v : String) : AttrTest → Bool
  | .present => true
  | .equalsVal w => v = w
  | .containsVal w ci =>
    w ≠ "" && (if ci then jsIncludes (jsToLower v) (jsToLower w) else jsIncludes v w)

/-- Does a single element match a compound selector? -/
def matchCompound (n : DomNode) (c : CompoundSel) : Bool :=
  match n with
  | .text _ => false
  | .elem tag _ _ =>
    (match c.tag with
     | none => true
     | some t => jsToLower tag = jsToLower t) &&
    (c.classes.all fun cl => (classTokens (domClassName n)).contains cl) &&
    (c.attrSels.all fun a =>
      match getAttr n a.name with
      | none => false
      | some v => matchAttrTest v a.test)

/-- Matches the ancestor part of a chain (nearest ancestor first) against
an ancestor list, with descendant (not child) semantics. -/
def matchUp : List CompoundSel → List DomNode → Bool
  | [], _ => true
  | _ :: _, [] => false
  | c :: cs, a :: as => (matchCompound a c && matchUp cs as) || matchUp (c :: cs) as

/-- Does node `n` with the given ancestors (nearest first) match a chain? -/
def matchChain (ancestors : List DomNode) (n : DomNode) (chain : List CompoundSel) : Bool :=
  match chain.reverse with
  | [] => false
  | c :: cs => matchCompound n c && matchUp cs ancestors

mutual

/-- All strict descendants of a node in document (preorder) order, paired
with their ancestor chain (nearest first, ending at the query root). -/
def descendantsOf (path : List DomNode) (n : DomNode) : List (List DomNode × DomNode) :=
  match n with
  | .text _ => []
  | .elem _ _ cs => descendantsList (n :: path) cs

/-- Descendant enumeration over a child list. -/
def descendantsList (path : List DomNode) : List DomNode → List (List DomNode × DomNode)
  | [] => []
  | c :: cs => (path, c) :: (descendantsOf path c ++ descendantsList path cs)

end

/-- Model of `root.querySelectorAll(sel)`, keeping ancestor paths.
An unparseable selector yields no matches (the source wraps almost all
dynamic-selector queries in `try`/`catch` with exactly this meaning). -/
def querySelectorAllWithPath (root : DomNode) (sel : String) :
    List (List DomNode × DomNode) :=
  match parseSelector sel with
  | none => []
  | some chains =>
    (descendantsOf [] root).filter fun pm => chains.any (matchChain pm.1 pm.2)

/-- Model of `root.querySelectorAll(sel)`. -/
def querySelectorAll (root : DomNode) (sel : String) : List DomNode :=
  (querySelectorAllWithPath root sel).map (·.2)

/-- Model of `root.querySelector(sel)`. -/
def querySelector (root : DomNode) (sel : String) : Option DomNode :=
  (querySelectorAll root sel).head?

/-- Helper for `closest`: first of `n` and its ancestors matching. -/
def closestAux (chains : List (List CompoundSel)) : List DomNode → Option DomNode
  | [] => none
  | a :: rest =>
    if chains.any (matchChain rest a) then some a else closestAux chains rest

/-- Model of `n.closest(sel)` given the ancestors of `n` (nearest first). -/
def closest (n : DomNode) (ancestors : List DomNode) (sel : String) : Option DomNode :=
  match parseSelector sel with
  | none => none
  | some chains => closestAux chains (n :: ancestors)

/- ### Content Extractor (source: `getCleanText`, `extractContent`, `extractRole`,
`extractTimestamp`, `extractCodeBlocks`, `extractArtifacts`) -/

/-- Selector of the hidden-element removal pass in `getCleanText`. -/
def hiddenRemovalSel : String :=
  "[hidden], [style*=\x22display: none\x22], [aria-hidden=\x22true\x22]"

/-- Selector of the navigation-element removal pass in `getCleanText`. -/
def navRemovalSel : String :=
  "nav, [class*=\x22nav\x22], [class*=\x22sidebar\x22], button, [role=\x22button\x22]"

/-- Keep-check of the navigation removal pass: a candidate containing
message content survives. -/
def navKeepSel : String := "[class*=\x22content\x22], [class*=\x22message\x22], p"

/-- Selector of the code-fencing pass in `getCleanText`. -/
def codeMarkSel : String := "pre, code, [class*=\x22code-block\x22]"

/-- Does node `n` (with the given ancestors, nearest first) match the
selector string? -/
def matchesSel (path : List DomNode) (n : DomNode) (sel : String) : Bool :=
  match parseSelector sel with
  | none => false
  | some chains => chains.any (matchChain path n)

mutual

/-- Removal of all descendants matching `hiddenRemovalSel`.  The source
takes a `querySelectorAll` snapshot and calls `remove()` on each entry in
document order; since an entry preceding another in document order is
either an ancestor of it or disjoint from it, that is equivalent to this
top-down recursive pruning. -/
def stripHiddenNode (path : List DomNode) : DomNode → DomNode
  | .text s => .text s
  | .elem t a cs => .elem t a (stripHiddenList (DomNode.elem t a cs :: path) cs)

/-- Hidden-element removal over a child list (`path` = ancestors of the
children, nearest first). -/
def stripHiddenList (path : List DomNode) : List DomNode → List DomNode
  | [] => []
  | c :: cs =>
    if matchesSel path c hiddenRemovalSel then stripHiddenList path cs
    else stripHiddenNode path c :: stripHiddenList path cs

end

mutual

/-- Removal of navigation-like descendants that do not contain message
content (same snapshot-to-recursion argument as for `stripHiddenNode`;
the keep-check `e.querySelector(navKeepSel)` only inspects the candidate's
own subtree, which removal of disjoint earlier matches cannot change). -/
def stripNavNode (path : List DomNode) : DomNode → DomNode
  | .text s => .text s
  | .elem t a cs => .elem t a (stripNavList (DomNode.elem t a cs :: path) cs)

/-- Navigation removal over a child list. -/
def stripNavList (path : List DomNode) : List DomNode → List DomNode
  | [] => []
  | c :: cs =>
    if matchesSel path c navRemovalSel && (querySelector c navKeepSel).isNone then
      stripNavList path cs
    else stripNavNode path c :: stripNavList path cs

end

/-- Word characters of the JavaScript regex class `\w`. -/
def isWordChar (c : Char) : Bool :=
  c.isAlpha || c.isDigit || c = '_'

/-- First capture group of `className.match(/language-(\w+)/)`, scanning
left to right with the regex's backtracking behaviour. -/
def langMatchAux : List Char → Option String
  | [] => none
  | c :: cs =>
    if listStartsWith (c :: cs) ("language-".data) then
      let w := ((c :: cs).drop 9).takeWhile isWordChar
      if w.isEmpty then langMatchAux cs else some (String.mk w)
    else langMatchAux cs

/-- Model of `className?.match(/language-(\w+)/)?.[1]`. -/
def languageClassMatch (s : String) : Option String :=
  langMatchAux s.data

/-- Replacement of a code-bearing element's content by a fenced code
block, as the in-place `code.textContent = ...` assignment does. -/
def rewriteCodeElem (c : DomNode) : DomNode :=
  match c with
  | .text s => .text s
  | .elem t a cs =>
    let language :=
      jsOrD (jsOr (getAttr (.elem t a cs) "data-language")
                  (languageClassMatch (domClassName (.elem t a cs)))) ""
    let codeText := textContent (.elem t a cs)
    .elem t a [.text ("\n``\x60" ++ language ++ "\n" ++ codeText ++ "\n``\x60\n")]

mutual

/-- Code-fencing pass: rewrites the topmost matching elements using their
original text (a nested match is detached by the parent's `textContent`
assignment before its own snapshot entry is processed, so only the topmost
match of a nested pair takes effect). -/
def rewriteCodeNode (path : List DomNode) : DomNode → DomNode
  | .text s => .text s
  | .elem t a cs => .elem t a (rewriteCodeList (DomNode.elem t a cs :: path) cs)

/-- Code-fencing pass over a child list. -/
def rewriteCodeList (path : List DomNode) : List DomNode → List DomNode
  | [] => []
  | c :: cs =>
    (if matchesSel path c codeMarkSel then rewriteCodeElem c
     else rewriteCodeNode path c) :: rewriteCodeList path cs

end

/-- Model of `getCleanText`: operates on a detached clone (cloning is the
identity in this functional model), strips hidden then navigation
elements, rewrites code-bearing elements as fenced blocks, and returns
the trimmed flattened text.  The three passes only ever test strict
descendants, as `querySelectorAll` does. -/
def getCleanText (el : DomNode) : String :=
  let c1 := stripHiddenNode [] el
  let c2 := stripNavNode [] c1
  let c3 := rewriteCodeNode [] c2
  jsTrim (textContent c3)

/-- Platform-supplied selector overrides (read-only configuration).  Only
the fields the capture core reads are modelled. -/
structure PlatformSelectors where
  chatContainer : Option String := none
  chatMessage : Option String := none
  messageContent : Option String := none
  loadMoreButton : Option String := none

/-- Platform profile. -/
structure Platform where
  name : String := ""
  selectors : PlatformSelectors := {}

/-- Generic content selectors of `extractContent`, in source order. -/
def contentSelectors : List String :=
  ["[class*=\x22message-content\x22]",
   "[class*=\x22message-text\x22]",
   "[class*=\x22content\x22]",
   "[class*=\x22text-content\x22]",
   "[class*=\x22markdown\x22]",
   "[class*=\x22prose\x22]",
   "p",
   ".text"]

/-- Generic part of `extractContent`: first selector whose match has
non-empty clean text wins; an empty-text match falls through to the next
selector; after the list is exhausted, the element's own clean text. -/
def extractContentGeneric (el : DomNode) : List String → String
  | [] => getCleanText el
  | sel :: rest =>
    match querySelector el sel with
    | some contentEl =>
      let tx := getCleanText contentEl
      if tx.length > 0 then tx else extractContentGeneric el rest
    | none => extractContentGeneric el rest

/-- Model of `extractContent`: when the platform supplies a (truthy)
content selector and it matches an element, that element's clean text is
returned unconditionally; otherwise the generic chain runs. -/
def extractContent (el : DomNode) (platform : Platform) : String :=
  if strTruthy platform.selectors.messageContent then
    match querySelector el (platform.selectors.messageContent.getD "") with
    | some contentEl => getCleanText contentEl
    | none => extractContentGeneric el contentSelectors
  else extractContentGeneric el contentSelectors

/-- Model of `extractRole`. -/
def extractRole (el : DomNode) (_platform : Platform) : String :=
  let dataRole :=
    jsOrD (jsOr (jsOr (jsOr (getAttr el "data-role") (getAttr el "data-message-role"))
                      (getAttr el "data-author"))
                (getAttr el "data-testid")) ""
  let dr := jsToLower dataRole
  if jsIncludes dr "user" || jsIncludes dr "human" then "user"
  else if jsIncludes dr "assistant" || jsIncludes dr "ai" || jsIncludes dr "bot" then "assistant"
  else
    let cn := jsToLower (domClassName el)
    if jsIncludes cn "user" || jsIncludes cn "human" || jsIncludes cn "you" then "user"
    else if jsIncludes cn "assistant" || jsIncludes cn "ai" || jsIncludes cn "bot" ||
            jsIncludes cn "agent" then "assistant"
    else if (querySelector el
        "[class*=\x22user-avatar\x22], [class*=\x22human-avatar\x22], img[alt*=\x22you\x22 i]").isSome
      then "user"
    else if (querySelector el
        "[class*=\x22ai-avatar\x22], [class*=\x22assistant-avatar\x22], [class*=\x22bot-avatar\x22]").isSome
      then "assistant"
    else
      match querySelector el "[class*=\x22role\x22], [class*=\x22author\x22], [class*=\x22sender\x22]" with
      | some ri =>
        let rt := jsToLower (textContent ri)
        if jsIncludes rt "you" || jsIncludes rt "user" || jsIncludes rt "human" then "user"
        else "assistant"
      | none => "assistant"

/-- Time-bearing selectors of `extractTimestamp`, in source order. -/
def timeSelectors : List String :=
  ["time", "[datetime]", "[data-timestamp]",
   "[class*=\x22timestamp\x22]", "[class*=\x22time\x22]", "[class*=\x22date\x22]"]

/-- Loop of `extractTimestamp`: the first selector that matches an element
decides the result (returning `null` from inside the loop when that
element carries no usable data, exactly as the source's early `return`). -/
def extractTimestampLoop (el : DomNode) : List String → Option String
  | [] => none
  | sel :: rest =>
    match querySelector el sel with
    | some timeEl =>
      jsOr (jsOr (getAttr timeEl "datetime") (getAttr timeEl "data-timestamp"))
           (let t := jsTrim (textContent timeEl)
            if t = "" then none else some t)
    | none => extractTimestampLoop el rest

/-- Model of `extractTimestamp`. -/
def extractTimestamp (el : DomNode) : Option String :=
  extractTimestampLoop el timeSelectors

/-- Captured code block. -/
structure CodeBlock where
  id : String
  language : String
  content : String
deriving DecidableEq

/-- Selector of `extractCodeBlocks`. -/
def codeBlockSel : String :=
  "pre code, pre, [class*=\x22code-block\x22], [class*=\x22CodeBlock\x22]"

/-- Model of `extractCodeBlocks`.  The `code_${i}` ids use the snapshot
index (empty-content entries are skipped but still consume an index). -/
def extractCodeBlocks (el : DomNode) : List CodeBlock :=
  ((querySelectorAllWithPath el codeBlockSel).enum).filterMap fun pr =>
    let code := pr.2.2
    let path := pr.2.1
    let language :=
      jsOrD (jsOr (jsOr (getAttr code "data-language")
                        (languageClassMatch (domClassName code)))
                  ((closest code path "pre").bind fun p => getAttr p "data-language")) "text"
    let content := jsTrim (textContent code)
    if content.length > 0 then some ⟨"code_" ++ toString pr.1, language, content⟩
    else none

/-- Selector of `extractArtifacts`. -/
def artifactSel : String :=
  "[data-artifact], [data-artifact-id], [class*=\x22artifact\x22], a[href*=\x22artifact\x22]"

/-- Model of `extractArtifacts`. -/
def extractArtifacts (el : DomNode) : List String :=
  (querySelectorAll el artifactSel).filterMap fun ae =>
    match jsOr (jsOr (getAttr ae "data-artifact") (getAttr ae "data-artifact-id"))
               (getAttr ae "href") with
    | some s => if s = "" then none else some s
    | none => none

/- ### `hashElement`, `extractMessage`, accumulator and finalization -/

/-- Model of `hashElement` on a DOM element: a page-supplied stable id
(`data-message-id` / `data-id`) yields an `id_`-prefixed fingerprint,
otherwise the content hash of `textContent.slice(0, 300).trim()` plus up
to 50 characters of the class name. -/
def hashElement (el : DomNode) : String :=
  let content := jsTrim (jsSlice (textContent el) 300)
  let className := domClassName el
  let dataId := jsOrD (jsOr (getAttr el "data-message-id") (getAttr el "data-id")) ""
  if dataId ≠ "" then "id_" ++ dataId
  else hashString (content ++ (if className ≠ "" then jsSlice className 50 else ""))

/-- Captured message record (`rawHtml` is the debug payload removed during
finalization). -/
structure Msg where
  id : String
  role : String
  content : String
  timestamp : Option String
  codeBlocks : List CodeBlock
  artifacts : List String
  order : Nat
  rawHtml : Option String
deriving DecidableEq

/-- Model of `extractMessage`. -/
def extractMessage (el : DomNode) (platform : Platform) (index : Nat) : Msg :=
  { id := "msg_" ++ hashElement el ++ "_" ++ toString index
    role := extractRole el platform
    content := extractContent el platform
    timestamp := extractTimestamp el
    codeBlocks := extractCodeBlocks el
    artifacts := extractArtifacts el
    order := index
    rawHtml := some (jsSlice (innerHTML el) 500) }

/-- Generic message selectors of `findMessageElements`, in source order. -/
def genericMessageSelectors : List String :=
  ["[data-testid*=\x22message\x22]",
   "[data-message-id]",
   "[class*=\x22message-container\x22]",
   "[class*=\x22chat-message\x22]",
   "[class*=\x22conversation-message\x22]",
   "[role=\x22listitem\x22][class*=\x22message\x22]",
   "[class*=\x22MessageRow\x22]",
   "[class*=\x22message-row\x22]",
   "[class*=\x22chat-row\x22]",
   ".message",
   "[class*=\x22turn\x22]",
   "[class*=\x22prose\x22]"]

/-- First selector in the list with a non-empty match set. -/
def findFirstMatch (document : DomNode) : List String → Option (List DomNode)
  | [] => none
  | sel :: rest =>
    let els := querySelectorAll document sel
    if els.length > 0 then some els else findFirstMatch document rest

/-- Model of `findMessageElements`: the platform selector list (comma-split,
each part tried independently) first, then the generic list; the first
non-empty match set wins, with no merging across strategies. -/
def findMessageElements (platform : Platform) (document : DomNode) : List DomNode :=
  let fromPlatform :=
    if strTruthy platform.selectors.chatMessage then
      findFirstMatch document
        ((splitOnChar ',' (platform.selectors.chatMessage.getD "")).map jsTrim)
    else none
  match fromPlatform with
  | some els => els
  | none => (findFirstMatch document genericMessageSelectors).getD []

/-- Mutable session state of the scraper object: accumulated messages,
seen-fingerprint set, attempt counter, run/cancel flag. -/
structure CaptureState where
  capturedMessages : List Msg
  seenMessageHashes : List String
  scrollAttempts : Nat
  isCapturing : Bool
deriving DecidableEq

/-- Session state right after the initialization in `captureFullHistory`. -/
def initState : CaptureState :=
  { capturedMessages := [], seenMessageHashes := [], scrollAttempts := 0, isCapturing := true }

/-- Body of the `forEach` in `captureVisibleMessages` for one element:
skip when the fingerprint was seen, otherwise record the fingerprint and
append the extracted message when its trimmed content is non-empty. -/
def capturePassStep (platform : Platform) (st : CaptureState) (el : DomNode) : CaptureState :=
  let hash := hashElement el
  if st.seenMessageHashes.contains hash then st
  else
    let st' := { st with seenMessageHashes := st.seenMessageHashes ++ [hash] }
    let message := extractMessage el platform st'.capturedMessages.length
    if 0 < (jsTrim message.content).length then
      { st' with capturedMessages := st'.capturedMessages ++ [message] }
    else st'

/-- Model of `captureVisibleMessages` on a given element list (the source
also returns a new-message count which no caller uses). -/
def captureVisible (platform : Platform) (st : CaptureState) (els : List DomNode) :
    CaptureState :=
  els.foldl (capturePassStep platform) st

/-- Model of `captureVisibleMessages` reading the current document. -/
def captureVisibleMessages (platform : Platform) (st : CaptureState)
    (document : DomNode) : CaptureState :=
  captureVisible platform st (findMessageElements platform document)

/-- Stable insertion of a message into a list sorted ascending by `order`:
the inserted message precedes existing entries of equal `order`, as it
comes earlier in the original list. -/
def insertByOrder (m : Msg) : List Msg → List Msg
  | [] => [m]
  | x :: xs => if m.order ≤ x.order then m :: x :: xs else x :: insertByOrder m xs

/-- Sorting step of `processMessages` (`sort((a, b) => a.order - b.order)`).
`Array.prototype.sort` is a stable sort and all stable sorts of the same
comparator agree extensionally, so stable insertion sort models it
exactly. -/
def sortByOrder : List Msg → List Msg
  | [] => []
  | m :: rest => insertByOrder m (sortByOrder rest)

/-- Content-level deduplication loop of `processMessages`: a message is
kept when its content hash is fresh and its trimmed content non-empty;
the hash is recorded only for kept messages. -/
def dedupByContentAux (contentHashes : List String) : List Msg → List Msg
  | [] => []
  | msg :: rest =>
    let contentHash := hashTextContent msg.content
    if contentHash ∉ contentHashes ∧ 0 < (jsTrim msg.content).length then
      msg :: dedupByContentAux (contentHashes ++ [contentHash]) rest
    else dedupByContentAux contentHashes rest

/-- Content-level deduplication pass of `processMessages`. -/
def dedupByContent (msgs : List Msg) : List Msg :=
  dedupByContentAux [] msgs

/-- Renumbering step of `processMessages`: dense `order` values from zero
and removal of the debug payload. -/
def renumber (msgs : List Msg) : List Msg :=
  msgs.mapIdx fun i msg => { msg with order := i, rawHtml := none }

/-- Model of `processMessages`. -/
def processMessages (msgs : List Msg) : List Msg :=
  renumber (dedupByContent (sortByOrder msgs))

/- ### Scroll Controller phase 1 (source: `scrollToAbsoluteTop`) -/

/-- Iteration cap of phase 1 (source field `maxScrollAttempts`). -/
def maxScrollAttempts : Nat := 300

/-- One observation of the host page per phase-1 iteration: the values the
loop body reads from the live page (whether `tryClickLoadMore` clicked,
the scroll metrics after the waits, whether a load-more button is present
for the early-exit check) plus the `isCapturing` flag at the loop guard,
which external cancellation may have cleared. -/
structure P1Obs where
  capturing : Bool
  loadMoreClicked : Bool
  scrollHeight : Int
  scrollTop : Int
  hasLoadMoreButton : Bool

/-- Result of phase 1: number of executed loop iterations and the progress
values passed to the progress callback, in emission order. -/
structure P1Result where
  iterations : Nat
  progressLog : List ℚ

/-- Progress value reported by phase 1 at a given iteration:
`Math.min(45, 2 + (iteration / maxScrollAttempts) * 43)`. -/
def phase1Progress (it : Nat) : ℚ :=
  min 45 (2 + ((it : ℚ) / (maxScrollAttempts : ℚ)) * 43)

/-- Loop of `scrollToAbsoluteTop`.  The fuel argument equals
`maxScrollAttempts - iteration`, so the recursion is exactly the source's
`while (iteration < this.maxScrollAttempts && this.isCapturing)` guard.
`previousScrollTop` is carried but never read by the loop logic, as in
the source. -/
def phase1Go (env : Nat → P1Obs) :
    Nat → Nat → Int → Int → Nat → List ℚ → P1Result
  | 0, it, _, _, _, log => ⟨it, log⟩
  | remaining + 1, it, previousScrollHeight, _previousScrollTop, stableCount, log =>
    let obs := env (it + 1)
    if ¬ obs.capturing then ⟨it, log⟩
    else
      let it' := it + 1
      let loadMoreClicked := obs.loadMoreClicked
      let currentScrollHeight := obs.scrollHeight
      let currentScrollTop := obs.scrollTop
      let log' := if it' % 10 = 0 then log ++ [phase1Progress it'] else log
      let heightStable := currentScrollHeight = previousScrollHeight
      let positionAtTop := currentScrollTop ≤ 5
      if heightStable ∧ positionAtTop ∧ loadMoreClicked = false then
        let stableCount' := stableCount + 1
        if stableCount' ≥ 5 then ⟨it', log'⟩
        else if stableCount' ≥ 3 ∧ obs.hasLoadMoreButton = false then ⟨it', log'⟩
        else phase1Go env remaining it' currentScrollHeight currentScrollTop stableCount' log'
      else
        phase1Go env remaining it' currentScrollHeight currentScrollTop 0 log'

/-- Model of `scrollToAbsoluteTop`: `previousScrollHeight` and
`previousScrollTop` start at `-1`, the stable counter at zero. -/
def scrollToAbsoluteTop (env : Nat → P1Obs) : P1Result :=
  phase1Go env maxScrollAttempts 0 (-1) (-1) 0 []

/- ### Scroll Controller phase 2 (source: `scrollAndCaptureAll`) -/

/-- One observation of the host page per phase-2 iteration: the rendered
document at each of the three capture points of the iteration, the scroll
metrics read after the scroll step, and the `isCapturing` flag at the
loop guard. -/
structure P2Obs where
  capturing : Bool
  document : DomNode
  scrollTop : Int
  clientHeight : Int
  scrollHeight : Int
  documentBottom1 : DomNode
  documentBottom2 : DomNode

/-- How a phase-2 run ended: the bottom branch's `break`, the loop guard
seeing a cleared `isCapturing`, the stability branch's `break`, or fuel
exhaustion (the loop itself has no iteration cap). -/
inductive P2Exit where
  | bottom
  | cancelled
  | stability
  | fuelOut
deriving DecidableEq

/-- Result of a phase-2 run. -/
structure P2Result where
  exitReason : P2Exit
  state : CaptureState
  progressLog : List ℚ

/-- Progress value reported by phase 2:
`50 + Math.min(45, (totalScrolled / scrollHeight) * 45)`. -/
def phase2Progress (totalScrolled : ℚ) (scrollHeight : Int) : ℚ :=
  50 + min 45 (totalScrolled / (scrollHeight : ℚ) * 45)

/-- Loop of `scrollAndCaptureAll`.  `maxStable` is 8 in the source; the
stability break is translated literally, including its (always false at
that point) `atBottom` conjunct. -/
def phase2Go (platform : Platform) (env : Nat → P2Obs) (scrollStep : ℚ) :
    Nat → Nat → ℚ → Nat → Nat → CaptureState → List ℚ → P2Result
  | 0, _, _, _, _, st, log => ⟨.fuelOut, st, log⟩
  | fuel + 1, k, totalScrolled, previousMessageCount, stableCount, st, log =>
    let obs := env k
    if ¬ obs.capturing then ⟨.cancelled, st, log⟩
    else
      let totalScrolled' := totalScrolled + scrollStep
      let st1 := captureVisibleMessages platform st obs.document
      let log' := log ++ [phase2Progress totalScrolled' obs.scrollHeight]
      let scrollPosition := obs.scrollTop + obs.clientHeight
      let atBottom := scrollPosition ≥ obs.scrollHeight - 20
      if atBottom then
        let st2 := captureVisibleMessages platform st1 obs.documentBottom1
        let st3 := captureVisibleMessages platform st2 obs.documentBottom2
        ⟨.bottom, st3, log'⟩
      else
        if st1.capturedMessages.length = previousMessageCount then
          let stableCount' := stableCount + 1
          if stableCount' ≥ 8 ∧ atBottom then ⟨.stability, st1, log'⟩
          else phase2Go platform env scrollStep fuel (k + 1) totalScrolled'
                 st1.capturedMessages.length stableCount' st1 log'
        else
          phase2Go platform env scrollStep fuel (k + 1) totalScrolled'
            st1.capturedMessages.length 0 st1 log'

/-- Host-page behaviour for a whole phase-2 run: the document at the
pre-loop capture, the viewport height used once to compute the scroll
step, and the per-iteration observations. -/
structure P2Env where
  document0 : DomNode
  clientHeight0 : Int
  obs : Nat → P2Obs

/-- Model of `scrollAndCaptureAll`: initial capture at the top, scroll
step `Math.max(200, clientHeight * 0.6)`, then the loop. -/
def scrollAndCaptureAll (platform : Platform) (e : P2Env) (fuel : Nat)
    (st : CaptureState) : P2Result :=
  let st0 := captureVisibleMessages platform st e.document0
  let scrollStep : ℚ := max 200 ((e.clientHeight0 : ℚ) * (3 / 5))
  phase2Go platform e.obs scrollStep fuel 0 0 0 0 st0 []

/-- Model of `captureFullHistory` after container location: session state
is re-initialized, phase 1 runs (contributing only the attempt counter),
phase 2 runs and captures, and `processMessages` finalizes the result.
Container discovery and the progress calls at phase boundaries do not
affect the returned messages and are not modelled. -/
def captureFullHistory (platform : Platform) (p1env : Nat → P1Obs)
    (p2env : P2Env) (p2fuel : Nat) : List Msg :=
  let r1 := scrollToAbsoluteTop p1env
  let st1 : CaptureState := { initState with scrollAttempts := r1.iterations }
  let r2 := scrollAndCaptureAll platform p2env p2fuel st1
  processMessages r2.state.capturedMessages

/- ### Theorems -/

/-- The phase-1 loop executes at most `remaining` further iterations. -/
theorem phase1Go_iterations_le (env : Nat → P1Obs) :
    ∀ remaining it pH pT sc log,
      (phase1Go env remaining it pH pT sc log).iterations ≤ it + remaining := by
  intro remaining
  induction remaining with
  | zero => intro it pH pT sc log; simp [phase1Go]
  | succ n ih =>
    intro it pH pT sc log
    simp only [phase1Go]
    split
    · dsimp only; omega
    · split
      · split
        · dsimp only; omega
        · split
          · dsimp only; omega
          · have := ih (it + 1) (env (it + 1)).scrollHeight (env (it + 1)).scrollTop (sc + 1)
              (if (it + 1) % 10 = 0 then log ++ [phase1Progress (it + 1)] else log)
            omega
      · have := ih (it + 1) (env (it + 1)).scrollHeight (env (it + 1)).scrollTop 0
          (if (it + 1) % 10 = 0 then log ++ [phase1Progress (it + 1)] else log)
        omega

/-- C3: phase 1 (`scrollToAbsoluteTop`) terminates for every host-page
behaviour: its loop executes at most `maxScrollAttempts = 300` iterations,
even if the page reports a different scroll height on every observation
and a load-more button is always present (the bound holds for every
observation environment). -/
theorem scrollToAbsoluteTop_iterations_le_max (env : Nat → P1Obs) :
    (scrollToAbsoluteTop env).iterations ≤ maxScrollAttempts := by
  have h := phase1Go_iterations_le env maxScrollAttempts 0 (-1) (-1) 0 []
  simpa [scrollToAbsoluteTop] using h

/- ### Concrete scenario A (claim C7) -/

/-- Platform profile with no selector overrides. -/
def emptyPlatform : Platform := {}

/-- One of the 40 pre-rendered message elements of scenario A. -/
def mkMsgEl (i : Nat) : DomNode :=
  .elem "div" [("class", "message")] [.text ("message number " ++ toString i)]

/-- Scenario A document: 40 pre-rendered message elements. -/
def scenarioADoc : DomNode := .elem "main" [] ((List.range 40).map mkMsgEl)

/-- Scenario A phase-1 observations: never cancelled, no load-more button,
no clicks, scroll height and top position stable from the first
observation. -/
def scenarioAP1Env : Nat → P1Obs := fun _ =>
  { capturing := true, loadMoreClicked := false, scrollHeight := 1000,
    scrollTop := 0, hasLoadMoreButton := false }

/-- Scenario A phase-2 observations: all 40 elements rendered throughout,
stable metrics, already at the bottom after the first scroll step. -/
def scenarioAP2Env : P2Env :=
  { document0 := scenarioADoc
    clientHeight0 := 100
    obs := fun _ =>
      { capturing := true, document := scenarioADoc, scrollTop := 940,
        clientHeight := 100, scrollHeight := 1000,
        documentBottom1 := scenarioADoc, documentBottom2 := scenarioADoc } }

set_option maxRecDepth 100000 in
/-- C7 (counterexample): in scenario A phase 1 does not exit after 3 loop
iterations.  `previousScrollHeight` starts at `-1`, so the first
iteration can never count as stable; the stable counter reaches 3 only at
iteration 4. -/
theorem scenarioA_phase1_not_three_iterations :
    (scrollToAbsoluteTop scenarioAP1Env).iterations ≠ 3 := by decide

set_option maxRecDepth 100000 in
/-- C7 (amended): in scenario A (40 pre-rendered message elements, no
load-more button, stable scroll metrics from the first observation),
phase 1 exits after exactly 4 loop iterations (the first iteration
compares against the initial `-1` sentinel and cannot be stable; the
stable counter then reaches 3 with no load-more button present), and
phase 2 captures all 40 messages, with 40 distinct fingerprints and final
`order` values 0..39. -/
theorem scenarioA_amended :
    (scrollToAbsoluteTop scenarioAP1Env).iterations = 4 ∧
    (captureFullHistory emptyPlatform scenarioAP1Env scenarioAP2Env 5).length = 40 ∧
    (captureFullHistory emptyPlatform scenarioAP1Env scenarioAP2Env 5).map
      (fun m => m.order) = List.range 40 ∧
    (findMessageElements emptyPlatform scenarioADoc).length = 40 ∧
    ((findMessageElements emptyPlatform scenarioADoc).map hashElement).Nodup :=
  ⟨by decide, by decide, by decide, by decide, by decide⟩

/- ### Claim C4: the fingerprint hash -/

/-- Values of `toInt32` lie in the signed 32-bit range. -/
theorem toInt32_range (x : Int) :
    -2147483648 ≤ toInt32 x ∧ toInt32 x < 2147483648 := by
  simp only [toInt32]
  split <;> omega

/-- One hash step is multiplication by 31 plus the character code, in
32-bit signed overflow arithmetic: the intermediate truncation of the
shift does not change the residue modulo `2^32`. -/
theorem hashStep_eq_31 (h : Int) (c : Char) :
    hashStep h c = toInt32 (31 * h + (c.toNat : Int)) := by
  simp only [hashStep, toInt32]
  split_ifs <;> omega

/-- The hash step function, written in the claim's `hash*31 + charCode`
form. -/
theorem hashStep_funext :
    hashStep = fun h c => toInt32 (31 * h + (c.toNat : Int)) := by
  funext h c
  exact hashStep_eq_31 h c

/-- The accumulated hash always stays in the signed 32-bit range. -/
theorem hashFold_range (l : List Char) :
    ∀ h : Int, -2147483648 ≤ h ∧ h < 2147483648 →
      -2147483648 ≤ l.foldl hashStep h ∧ l.foldl hashStep h < 2147483648 := by
  induction l with
  | nil => intro h hh; simpa using hh
  | cons c cs ih =>
    intro h _
    exact ih (hashStep h c) (by simpa [hashStep] using toInt32_range (toInt32 (h * 32) - h + (c.toNat : Int)))

/-- Modelled from the claim's words, for comparison only: a fingerprint
computed over the first 300 characters of the *trimmed* text (trim first,
then slice) concatenated with up to 50 characters of the class name.  The
source's `hashElement` slices before trimming. -/
def claimedFingerprint (textVal classVal : String) : String :=
  hashString (jsSlice (jsTrim textVal) 300 ++ jsSlice classVal 50)

/-- Element whose text is a space followed by 300 `a`s: slicing first
drops the 300th `a`, trimming first keeps it. -/
def c4Element : DomNode :=
  .elem "div" [] [.text (" " ++ String.mk (List.replicate 300 'a'))]

set_option maxRecDepth 10000 in
/-- C4 (counterexample): for an element without a page-supplied stable id
whose text is a space followed by 300 `a`s, the fingerprint computed by
`hashElement` differs from the hash over the first 300 characters of the
*trimmed* text: the source slices to 300 characters before trimming (here
keeping 299 `a`s), not after (300 `a`s). -/
theorem hashElement_trim_order_counterexample :
    hashElement c4Element ≠
      claimedFingerprint (textContent c4Element) (domClassName c4Element) := by
  have c1 : (List.replicate 50 'a').foldl hashStep 0 = -1203646688 := by decide
  have c2 : (List.replicate 50 'a').foldl hashStep (-1203646688) = -323643840 := by decide
  have c3 : (List.replicate 50 'a').foldl hashStep (-323643840) = 334320992 := by decide
  have c4 : (List.replicate 50 'a').foldl hashStep 334320992 = 469437568 := by decide
  have c5 : (List.replicate 50 'a').foldl hashStep 469437568 = -1972323424 := by decide
  have cA : (List.replicate 49 'a').foldl hashStep (-1972323424) = -2132126271 := by decide
  have cB : (List.replicate 50 'a').foldl hashStep (-1972323424) = -1671404864 := by decide
  have hA : (List.replicate 299 'a').foldl hashStep 0 = -2132126271 := by
    have e : List.replicate 299 'a' =
        ((((List.replicate 50 'a' ++ List.replicate 50 'a') ++ List.replicate 50 'a')
          ++ List.replicate 50 'a') ++ List.replicate 50 'a') ++ List.replicate 49 'a' := by
      simp [← List.replicate_add]
    rw [e, List.foldl_append, List.foldl_append, List.foldl_append, List.foldl_append,
      List.foldl_append, c1, c2, c3, c4, c5, cA]
  have hB : (List.replicate 300 'a').foldl hashStep 0 = -1671404864 := by
    have e : List.replicate 300 'a' =
        ((((List.replicate 50 'a' ++ List.replicate 50 'a') ++ List.replicate 50 'a')
          ++ List.replicate 50 'a') ++ List.replicate 50 'a') ++ List.replicate 50 'a' := by
      simp [← List.replicate_add]
    rw [e, List.foldl_append, List.foldl_append, List.foldl_append, List.foldl_append,
      List.foldl_append, c1, c2, c3, c4, c5, cB]
  have harg1 : jsTrim (jsSlice (textContent c4Element) 300) ++
      (if domClassName c4Element ≠ "" then jsSlice (domClassName c4Element) 50 else "")
      = String.mk (List.replicate 299 'a') := by decide
  have harg2 : jsSlice (jsTrim (textContent c4Element)) 300 ++
      jsSlice (domClassName c4Element) 50 = String.mk (List.replicate 300 'a') := by decide
  have lhs : hashElement c4Element = intToHexJS (-2132126271) := by
    simp only [hashElement, hashString]
    rw [if_neg (by decide)]
    rw [harg1, ← hA]
  have rhs : claimedFingerprint (textContent c4Element) (domClassName c4Element)
      = intToHexJS (-1671404864) := by
    simp only [claimedFingerprint, hashString]
    rw [harg2, ← hB]
  rw [lhs, rhs]
  decide

/-- C4 (amended): for every element without a page-supplied stable id,
the fingerprint computed by `hashElement` is the hexadecimal rendering of
the deterministic rolling hash `hash = toInt32 (hash * 31 + charCode)`
(32-bit signed overflow arithmetic, accumulator always in signed 32-bit
range) applied to the element's text sliced to 300 characters and *then*
trimmed, concatenated with up to 50 characters of its class-name string;
and the fingerprint depends only on the element's text, class name and
id-attribute values, so the same input always yields the same
fingerprint. -/
theorem hashElement_spec_amended (el : DomNode)
    (hid : jsOrD (jsOr (getAttr el "data-message-id") (getAttr el "data-id")) "" = "") :
    hashElement el =
      intToHexJS
        ((jsTrim (jsSlice (textContent el) 300) ++ jsSlice (domClassName el) 50).data.foldl
          (fun h c => toInt32 (31 * h + (c.toNat : Int))) 0) ∧
    (-2147483648 ≤ (jsTrim (jsSlice (textContent el) 300) ++
        jsSlice (domClassName el) 50).data.foldl hashStep 0 ∧
      (jsTrim (jsSlice (textContent el) 300) ++
        jsSlice (domClassName el) 50).data.foldl hashStep 0 < 2147483648) ∧
    (∀ el' : DomNode, textContent el' = textContent el →
      domClassName el' = domClassName el →
      getAttr el' "data-message-id" = getAttr el "data-message-id" →
      getAttr el' "data-id" = getAttr el "data-id" →
      hashElement el' = hashElement el) := by
  refine ⟨?_, hashFold_range _ 0 (by norm_num), ?_⟩
  · rw [← hashStep_funext]
    simp only [hashElement, hid, ne_eq, not_true_eq_false, if_false, hashString]
    by_cases hc : domClassName el = ""
    · simp [hc, jsSlice]
    · simp [hc]
  · intro el' ht hc h1 h2
    simp only [hashElement, ht, hc, h1, h2]

/-- C4 (witness for the amended theorem): the amended statement holds at
a concrete element carrying text and a class but no stable id. -/
theorem hashElement_spec_amended_witness :
    (jsOrD (jsOr (getAttr (.elem "div" [("class", "message x")] [.text "hello"])
        "data-message-id") (getAttr (.elem "div" [("class", "message x")] [.text "hello"])
        "data-id")) "" = "") ∧
    hashElement (.elem "div" [("class", "message x")] [.text "hello"]) =
      intToHexJS
        ((jsTrim (jsSlice (textContent (.elem "div" [("class", "message x")] [.text "hello"])) 300)
            ++ jsSlice (domClassName (.elem "div" [("class", "message x")] [.text "hello"])) 50).data.foldl
          (fun h c => toInt32 (31 * h + (c.toNat : Int))) 0) :=
  ⟨by decide, (hashElement_spec_amended (.elem "div" [("class", "message x")] [.text "hello"])
    (by decide)).1⟩

/- ### Claim C6: extraction fall-through -/

/-- Platform profile whose content selector is `.inner-empty`. -/
def c6Platform : Platform :=
  { selectors := { messageContent := some ".inner-empty" } }

/-- An element with empty clean text, matched by `c6Platform`'s selector. -/
def c6Span : DomNode := .elem "span" [("class", "inner-empty")] []

/-- Message element containing the empty span and a paragraph reading
`hello`. -/
def c6Element : DomNode := .elem "div" [] [c6Span, .elem "p" [] [.text "hello"]]

/-- C6 (counterexample): the platform-specific content selector matches an
element whose cleaned text is empty, yet `extractContent` returns that
empty string instead of proceeding to the generic content selectors,
which would have produced `hello`. -/
theorem extractContent_no_fallthrough_counterexample :
    (querySelector c6Element (c6Platform.selectors.messageContent.getD "")).map getCleanText
      = some "" ∧
    extractContent c6Element c6Platform = "" ∧
    extractContentGeneric c6Element contentSelectors = "hello" := by
  refine ⟨by decide, by decide, by decide⟩

/-- C6 (amended): the platform-specific content-selector step returns its
match's cleaned text without fall-through, even when that text is empty;
when the platform selector is absent or matches no element, extraction
proceeds to the generic content selectors, where every sub-strategy that
yields no content falls through to the next and ultimately to the
element's own full text; an empty overall result excludes the element
from the captured output rather than aborting the capture. -/
theorem extractContent_fallthrough_amended :
    (∀ (el : DomNode) (p : Platform), strTruthy p.selectors.messageContent = true →
      querySelector el (p.selectors.messageContent.getD "") = none →
      extractContent el p = extractContentGeneric el contentSelectors) ∧
    (∀ (el : DomNode) (p : Platform) (cEl : DomNode),
      strTruthy p.selectors.messageContent = true →
      querySelector el (p.selectors.messageContent.getD "") = some cEl →
      extractContent el p = getCleanText cEl) ∧
    (∀ (el : DomNode) (p : Platform), strTruthy p.selectors.messageContent = false →
      extractContent el p = extractContentGeneric el contentSelectors) ∧
    (∀ (el : DomNode) (sel : String) (rest : List String) (cEl : DomNode),
      querySelector el sel = some cEl → getCleanText cEl = "" →
      extractContentGeneric el (sel :: rest) = extractContentGeneric el rest) ∧
    (∀ (el : DomNode) (sel : String) (rest : List String),
      querySelector el sel = none →
      extractContentGeneric el (sel :: rest) = extractContentGeneric el rest) ∧
    (∀ el : DomNode, extractContentGeneric el [] = getCleanText el) ∧
    (∀ (platform : Platform) (st : CaptureState) (el : DomNode),
      jsTrim (extractContent el platform) = "" →
      (capturePassStep platform st el).capturedMessages = st.capturedMessages) := by
  refine ⟨?_, ?_, ?_, ?_, ?_, ?_, ?_⟩
  · intro el p hp hq
    simp [extractContent, hp, hq]
  · intro el p cEl hp hq
    simp [extractContent, hp, hq]
  · intro el p hp
    simp [extractContent, hp]
  · intro el sel rest cEl hq hempty
    simp [extractContentGeneric, hq, hempty]
  · intro el sel rest hq
    simp [extractContentGeneric, hq]
  · intro el
    simp [extractContentGeneric]
  · intro platform st el hempty
    simp only [capturePassStep]
    split
    · rfl
    · simp [extractMessage, hempty]

/-- C6 (witness): the amended platform-selector clause applied at the
concrete `c6` instances, and the exclusion clause applied at an element
with empty extracted content. -/
theorem extractContent_fallthrough_amended_witness :
    (strTruthy c6Platform.selectors.messageContent = true ∧
      querySelector c6Element (c6Platform.selectors.messageContent.getD "") = some c6Span ∧
      extractContent c6Element c6Platform = getCleanText c6Span) ∧
    (jsTrim (extractContent c6Span emptyPlatform) = "" ∧
      (capturePassStep emptyPlatform initState c6Span).capturedMessages
        = initState.capturedMessages) :=
  ⟨⟨by decide, by rfl,
      extractContent_fallthrough_amended.2.1 c6Element c6Platform c6Span (by decide) (by rfl)⟩,
    ⟨by decide,
      extractContent_fallthrough_amended.2.2.2.2.2.2 emptyPlatform initState c6Span (by decide)⟩⟩

/- ### Claim C9: empty first observation permanently excludes a fingerprint -/

/-- C9: in `captureVisibleMessages` the fingerprint is recorded in the
seen-set before the empty-content check, so an element whose first
observation extracts empty (post-trim) content contributes no message but
still marks its fingerprint as seen; afterwards every element carrying
the same fingerprint is skipped with no state change at all — even one
whose content would extract non-empty — so the fingerprint stays
permanently excluded from the accumulator. -/
theorem capture_seen_before_empty_check (platform : Platform) (st : CaptureState)
    (el : DomNode)
    (hnew : st.seenMessageHashes.contains (hashElement el) = false)
    (hempty : jsTrim (extractContent el platform) = "") :
    (capturePassStep platform st el).capturedMessages = st.capturedMessages ∧
    (capturePassStep platform st el).seenMessageHashes.contains (hashElement el) = true ∧
    (∀ el' : DomNode, hashElement el' = hashElement el →
      capturePassStep platform (capturePassStep platform st el) el'
        = capturePassStep platform st el) ∧
    (∀ els : List DomNode, (∀ x ∈ els, hashElement x = hashElement el) →
      captureVisible platform (capturePassStep platform st el) els
        = capturePassStep platform st el) := by
  have hstep : capturePassStep platform st el =
      { st with seenMessageHashes := st.seenMessageHashes ++ [hashElement el] } := by
    simp only [capturePassStep, hnew, Bool.false_eq_true, if_false, extractMessage, hempty]
    simp
  have hmem : ({ st with seenMessageHashes := st.seenMessageHashes ++ [hashElement el] } :
      CaptureState).seenMessageHashes.contains (hashElement el) = true := by
    simp
  have hskip : ∀ el' : DomNode, hashElement el' = hashElement el →
      capturePassStep platform (capturePassStep platform st el) el'
        = capturePassStep platform st el := by
    intro el' h'
    rw [hstep]
    simp only [capturePassStep, h']
    rw [if_pos hmem]
  refine ⟨by rw [hstep], by rw [hstep]; exact hmem, hskip, ?_⟩
  intro els hall
  induction els with
  | nil => rfl
  | cons x xs ih =>
    simp only [captureVisible, List.foldl_cons]
    rw [show capturePassStep platform (capturePassStep platform st el) x
        = capturePassStep platform st el from hskip x (hall x (by simp))]
    exact ih (fun y hy => hall y (by simp [hy]))

/-- Element whose first observation has only whitespace text but a stable
`data-message-id`. -/
def c9Empty : DomNode := .elem "div" [("data-message-id", "m1")] [.text "   "]

/-- Element with the same stable id rendering substantial content. -/
def c9Full : DomNode := .elem "div" [("data-message-id", "m1")] [.text "hello world"]

/-- C9 (witness): at the concrete elements `c9Empty`/`c9Full` (same
fingerprint `id_m1`, first empty, later non-empty) the first observation
adds no message and the later, content-bearing observation is skipped. -/
theorem capture_seen_before_empty_check_witness :
    initState.seenMessageHashes.contains (hashElement c9Empty) = false ∧
    jsTrim (extractContent c9Empty emptyPlatform) = "" ∧
    hashElement c9Full = hashElement c9Empty ∧
    (capturePassStep emptyPlatform initState c9Empty).capturedMessages
      = initState.capturedMessages ∧
    capturePassStep emptyPlatform (capturePassStep emptyPlatform initState c9Empty) c9Full
      = capturePassStep emptyPlatform initState c9Empty :=
  ⟨by decide, by decide, by decide,
    (capture_seen_before_empty_check emptyPlatform initState c9Empty (by decide)
      (by decide)).1,
    (capture_seen_before_empty_check emptyPlatform initState c9Empty (by decide)
      (by decide)).2.2.1 c9Full (by decide)⟩

/- ### Claim C10: phase-2 exit conditions -/

/-- C10: the phase-2 loop has no iteration cap, and it can only stop by
the bottom branch's `break` (when `scrollTop + clientHeight >=
scrollHeight - 20` holds after a scroll step), by the loop guard seeing a
cleared `isCapturing`, or by running out of the model's fuel.  The
no-growth stability branch can never cause the exit: its `atBottom`
conjunct is evaluated on the path where the earlier unconditional bottom
`break` was not taken, so it is always false there.  Consequently, on a
page that is never at the bottom and is never cancelled, the loop runs
out of any amount of fuel: phase 2 is non-terminating absent
cancellation. -/
theorem scrollAndCaptureAll_exit_analysis :
    (∀ (platform : Platform) (env : Nat → P2Obs) (scrollStep : ℚ) (fuel k : Nat)
      (totalScrolled : ℚ) (pc sc : Nat) (st : CaptureState) (log : List ℚ),
      (phase2Go platform env scrollStep fuel k totalScrolled pc sc st log).exitReason
        ≠ P2Exit.stability) ∧
    (∀ (platform : Platform) (e : P2Env) (fuel : Nat) (st : CaptureState),
      (∀ k, (e.obs k).capturing = true) →
      (∀ k, ¬((e.obs k).scrollTop + (e.obs k).clientHeight ≥ (e.obs k).scrollHeight - 20)) →
      (scrollAndCaptureAll platform e fuel st).exitReason = P2Exit.fuelOut) := by
  have hstab : ∀ (platform : Platform) (env : Nat → P2Obs) (scrollStep : ℚ) (fuel : Nat),
      ∀ (k : Nat) (totalScrolled : ℚ) (pc sc : Nat) (st : CaptureState) (log : List ℚ),
      (phase2Go platform env scrollStep fuel k totalScrolled pc sc st log).exitReason
        ≠ P2Exit.stability := by
    intro platform env scrollStep fuel
    induction fuel with
    | zero => intro k ts pc sc st log; simp [phase2Go]
    | succ n ih =>
      intro k ts pc sc st log
      simp only [phase2Go]
      split
      · simp
      · split
        · simp
        · split
          · split
            · rename_i hbot _ hcond
              exact absurd hcond.2 hbot
            · exact ih (k + 1) (ts + scrollStep) _ _ _ _
          · exact ih (k + 1) (ts + scrollStep) _ _ _ _
  have hfuel : ∀ (platform : Platform) (env : Nat → P2Obs) (scrollStep : ℚ),
      (∀ k, (env k).capturing = true) →
      (∀ k, ¬((env k).scrollTop + (env k).clientHeight ≥ (env k).scrollHeight - 20)) →
      ∀ (fuel : Nat), ∀ (k : Nat) (totalScrolled : ℚ) (pc sc : Nat) (st : CaptureState)
        (log : List ℚ),
      (phase2Go platform env scrollStep fuel k totalScrolled pc sc st log).exitReason
        = P2Exit.fuelOut := by
    intro platform env scrollStep hcap hbot fuel
    induction fuel with
    | zero => intro k ts pc sc st log; simp [phase2Go]
    | succ n ih =>
      intro k ts pc sc st log
      simp only [phase2Go]
      rw [if_neg (by simp [hcap k]), if_neg (hbot k)]
      split
      · rw [if_neg (by intro hc; exact hbot k hc.2)]
        exact ih (k + 1) (ts + scrollStep) _ _ _ _
      · exact ih (k + 1) (ts + scrollStep) _ _ _ _
  exact ⟨fun platform env s fuel => hstab platform env s fuel,
    fun platform e fuel st hc hb => hfuel platform e.obs _ hc hb fuel 0 0 0 0 _ []⟩

/-- Host page for the C10 witness: never cancelled and never at the
bottom. -/
def c10Env : P2Env :=
  { document0 := .elem "main" [] []
    clientHeight0 := 100
    obs := fun _ =>
      { capturing := true, document := .elem "main" [] [], scrollTop := 0,
        clientHeight := 100, scrollHeight := 10000,
        documentBottom1 := .elem "main" [] [], documentBottom2 := .elem "main" [] [] } }

/-- C10 (witness): on the concrete never-at-bottom, never-cancelled page
`c10Env`, a phase-2 run exhausts its fuel instead of exiting. -/
theorem scrollAndCaptureAll_exit_analysis_witness :
    (scrollAndCaptureAll emptyPlatform c10Env 3 initState).exitReason = P2Exit.fuelOut :=
  scrollAndCaptureAll_exit_analysis.2 emptyPlatform c10Env 3 initState
    (fun _ => rfl)
    (fun _ => by show ¬((0 : Int) + 100 ≥ (10000 : Int) - 20); decide)

/- ### Claim C5: empty-content exclusion -/

/-- A sequence of capture passes over element lists, starting from a given
session state (as repeated `captureVisibleMessages` calls do during the
scroll phases, including repeated passes over the same elements under
virtualization re-renders). -/
def runPasses (platform : Platform) (passes : List (List DomNode))
    (st : CaptureState) : CaptureState :=
  passes.foldl (captureVisible platform) st

/-- Each message present after one `capturePassStep` was either already
present or has non-empty trimmed content. -/
theorem capturePassStep_content (platform : Platform) (st : CaptureState) (el : DomNode) :
    ∀ m ∈ (capturePassStep platform st el).capturedMessages,
      m ∈ st.capturedMessages ∨ 0 < (jsTrim m.content).length := by
  intro m hm
  simp only [capturePassStep] at hm
  split at hm
  · exact .inl hm
  · split at hm
    · rename_i hpos
      rcases List.mem_append.mp hm with h | h
      · exact .inl h
      · simp only [List.mem_singleton] at h
        subst h
        exact .inr hpos
    · exact .inl hm

/-- Non-empty trimmed content is an invariant of the accumulator across
any sequence of capture passes. -/
theorem runPasses_content_nonempty (platform : Platform) (passes : List (List DomNode))
    (st : CaptureState)
    (hst : ∀ m ∈ st.capturedMessages, 0 < (jsTrim m.content).length) :
    ∀ m ∈ (runPasses platform passes st).capturedMessages,
      0 < (jsTrim m.content).length := by
  induction passes generalizing st with
  | nil => exact hst
  | cons els rest ih =>
    refine ih (captureVisible platform st els) ?_
    clear ih
    induction els generalizing st with
    | nil => exact hst
    | cons el els ih2 =>
      refine ih2 (capturePassStep platform st el) ?_
      intro m hm
      rcases capturePassStep_content platform st el m hm with h | h
      · exact hst m h
      · exact h

/-- Members of the deduplication pass's output come from its input and
have non-empty trimmed content. -/
theorem dedupByContentAux_mem (l : List Msg) :
    ∀ (seen : List String) (m : Msg), m ∈ dedupByContentAux seen l →
      m ∈ l ∧ 0 < (jsTrim m.content).length := by
  induction l with
  | nil => intro seen m hm; simp [dedupByContentAux] at hm
  | cons x xs ih =>
    intro seen m hm
    simp only [dedupByContentAux] at hm
    split at hm
    · rename_i hcond
      rcases List.mem_cons.mp hm with h | h
      · subst h
        refine ⟨by simp, ?_⟩
        simpa using hcond.2
      · have := ih _ m h
        exact ⟨List.mem_cons_of_mem x this.1, this.2⟩
    · have := ih _ m hm
      exact ⟨List.mem_cons_of_mem x this.1, this.2⟩

/-- The contents of a renumbered list, in order (renumbering rewrites
only `order` and `rawHtml`). -/
theorem mapIdx_content (f : Nat → Msg → Msg) (hf : ∀ i m, (f i m).content = m.content) :
    ∀ l : List Msg, (l.mapIdx f).map (fun m => m.content) = l.map (fun m => m.content) := by
  intro l
  induction l generalizing f with
  | nil => simp
  | cons x xs ih =>
    rw [List.mapIdx_cons]
    simp only [List.map_cons, hf]
    rw [ih (fun i => f (i + 1)) (fun i m => hf (i + 1) m)]

/-- Sorting permutes the messages. -/
theorem sortByOrder_perm (l : List Msg) : (sortByOrder l).Perm l := by
  induction l with
  | nil => simp [sortByOrder]
  | cons x xs ih =>
    have hins : ∀ (m : Msg) (ys : List Msg), (insertByOrder m ys).Perm (m :: ys) := by
      intro m ys
      induction ys with
      | nil => simp [insertByOrder]
      | cons y ys ihy =>
        simp only [insertByOrder]
        split
        · exact .refl _
        · exact .trans (.cons y ihy) (.swap m y ys)
    exact .trans (hins x (sortByOrder xs)) (.cons x ih)

/-- C5: an element whose extracted content trims to the empty string
never appears in capture results: every message accumulated across any
sequence of capture passes has non-empty trimmed content
(`captureVisibleMessages` refuses to append empty messages), and so does
every message in the finalized `processMessages` output (which moreover
drops empty entries from arbitrary inputs). -/
theorem capture_empty_content_exclusion (platform : Platform)
    (passes : List (List DomNode)) :
    (∀ m ∈ (runPasses platform passes initState).capturedMessages,
      jsTrim m.content ≠ "") ∧
    (∀ m ∈ processMessages (runPasses platform passes initState).capturedMessages,
      jsTrim m.content ≠ "") := by
  have hlen : ∀ s : String, 0 < s.length → s ≠ "" := by
    intro s hs he
    subst he
    simp at hs
  constructor
  · intro m hm
    exact hlen _ (runPasses_content_nonempty platform passes initState (by simp [initState]) m hm)
  · intro m hm
    simp only [processMessages, renumber] at hm
    have hc : m.content ∈ (dedupByContent (sortByOrder
        (runPasses platform passes initState).capturedMessages)).map (fun m => m.content) := by
      rw [← mapIdx_content (fun i msg => { msg with order := i, rawHtml := none })
        (fun _ _ => rfl)]
      exact List.mem_map_of_mem (fun m => m.content) hm
    rcases List.mem_map.mp hc with ⟨m', hm', hcmeq⟩
    have := (dedupByContentAux_mem _ [] m' hm').2
    rw [← hcmeq]
    exact hlen _ this

/-- Element with extractable content for the C5 witness. -/
def c5Element : DomNode := .elem "div" [("class", "message")] [.text "hello"]

/-- The message that the one-pass capture of `c5Element` produces in the
finalized output. -/
def c5OutMsg : Msg :=
  { extractMessage c5Element emptyPlatform 0 with order := 0, rawHtml := none }

set_option maxRecDepth 100000 in
/-- C5 (witness): the exclusion theorem applied to the concrete one-pass
capture of `c5Element`, with the membership hypothesis discharged at the
concrete finalized message. -/
theorem capture_empty_content_exclusion_witness :
    c5OutMsg ∈ processMessages (runPasses emptyPlatform [[c5Element]] initState).capturedMessages ∧
    jsTrim c5OutMsg.content ≠ "" :=
  ⟨by decide,
    (capture_empty_content_exclusion emptyPlatform [[c5Element]]).2 c5OutMsg (by decide)⟩

/- ### Claim C2: order density -/

/-- One capture step preserves the invariant that the accumulated `order`
values are exactly `0..N-1` in order (each appended message receives the
current accumulator length). -/
theorem capturePassStep_orders (platform : Platform) (st : CaptureState) (el : DomNode)
    (h : st.capturedMessages.map (fun m => m.order)
      = List.range st.capturedMessages.length) :
    (capturePassStep platform st el).capturedMessages.map (fun m => m.order)
      = List.range (capturePassStep platform st el).capturedMessages.length := by
  simp only [capturePassStep]
  split
  · exact h
  · split
    · simp only [List.map_append, List.length_append, List.map_cons, List.map_nil,
        List.length_cons, List.length_nil, extractMessage]
      rw [h, List.range_succ]
    · exact h

/-- The order invariant holds after any sequence of capture passes. -/
theorem runPasses_orders (platform : Platform) (passes : List (List DomNode))
    (st : CaptureState)
    (hst : st.capturedMessages.map (fun m => m.order)
      = List.range st.capturedMessages.length) :
    (runPasses platform passes st).capturedMessages.map (fun m => m.order)
      = List.range (runPasses platform passes st).capturedMessages.length := by
  induction passes generalizing st with
  | nil => exact hst
  | cons els rest ih =>
    refine ih (captureVisible platform st els) ?_
    clear ih
    induction els generalizing st with
    | nil => exact hst
    | cons el els ih2 =>
      exact ih2 (capturePassStep platform st el) (capturePassStep_orders platform st el hst)

/-- A list already sorted (weakly) by `order` is a fixed point of the
stable sort. -/
theorem sortByOrder_of_sorted (l : List Msg)
    (h : l.Pairwise (fun a b => a.order ≤ b.order)) : sortByOrder l = l := by
  induction l with
  | nil => rfl
  | cons x xs ih =>
    have hx := List.pairwise_cons.mp h
    rw [sortByOrder, ih hx.2]
    cases xs with
    | nil => rfl
    | cons y ys =>
      simp only [insertByOrder]
      rw [if_pos (hx.1 y (by simp))]

/-- The deduplication pass keeps a sublist of its input. -/
theorem dedupByContentAux_sublist (l : List Msg) :
    ∀ seen : List String, (dedupByContentAux seen l).Sublist l := by
  induction l with
  | nil => intro seen; simp [dedupByContentAux]
  | cons x xs ih =>
    intro seen
    simp only [dedupByContentAux]
    split
    · exact (ih _).cons₂ x
    · exact (ih _).cons x

/-- Orders produced by the renumbering map, shifted by `k`. -/
theorem renumber_orders_aux (l : List Msg) :
    ∀ k : Nat,
      (l.mapIdx fun i m => { m with order := i + k, rawHtml := none }).map (fun m => m.order)
        = List.range' k l.length := by
  induction l with
  | nil => intro k; simp
  | cons x xs ih =>
    intro k
    rw [List.mapIdx_cons]
    have hfun : (fun i (m : Msg) => ({ m with order := (i + 1) + k, rawHtml := none } : Msg))
        = fun i m => { m with order := i + (k + 1), rawHtml := none } := by
      funext i m
      simp [Nat.add_assoc, Nat.add_comm 1 k]
    simp only [List.map_cons]
    rw [hfun, ih (k + 1)]
    simp [List.range'_succ]

/-- The renumbering step yields orders `0..N-1`. -/
theorem renumber_orders (l : List Msg) :
    (renumber l).map (fun m => m.order) = List.range l.length := by
  have hfun : (fun i (m : Msg) => ({ m with order := i, rawHtml := none } : Msg))
      = fun i m => { m with order := i + 0, rawHtml := none } := by
    funext i m
    simp
  rw [renumber, hfun, renumber_orders_aux l 0, List.range_eq_range']

/-- C2: after any sequence of capture passes, the finalized
`processMessages` output has `order` values exactly `0..N-1` (no gaps, no
repeats, ascending); the messages surviving to the renumbering step are a
sublist of the sorted accumulator whose original capture-time orders are
strictly increasing (so only the content-level dedup pass removes
messages and relative order is preserved); and renumbering keeps that
relative order (the contents coincide position by position). -/
theorem processMessages_order_density (platform : Platform)
    (passes : List (List DomNode)) :
    (processMessages (runPasses platform passes initState).capturedMessages).map
        (fun m => m.order)
      = List.range
          (processMessages (runPasses platform passes initState).capturedMessages).length ∧
    ((dedupByContent (sortByOrder (runPasses platform passes initState).capturedMessages)).map
        (fun m => m.order)).Pairwise (· < ·) ∧
    (processMessages (runPasses platform passes initState).capturedMessages).map
        (fun m => m.content)
      = (dedupByContent (sortByOrder (runPasses platform passes initState).capturedMessages)).map
          (fun m => m.content) ∧
    (dedupByContent (sortByOrder (runPasses platform passes initState).capturedMessages)).Sublist
      (sortByOrder (runPasses platform passes initState).capturedMessages) := by
  have horders := runPasses_orders platform passes initState (by simp [initState])
  have hpair : (runPasses platform passes initState).capturedMessages.Pairwise
      (fun a b => a.order < b.order) := by
    have := List.pairwise_lt_range (runPasses platform passes initState).capturedMessages.length
    rw [← horders] at this
    exact (List.pairwise_map).mp this
  have hsort : sortByOrder (runPasses platform passes initState).capturedMessages
      = (runPasses platform passes initState).capturedMessages :=
    sortByOrder_of_sorted _ (hpair.imp (fun hab => Nat.le_of_lt hab))
  have hsub : (dedupByContent (sortByOrder
        (runPasses platform passes initState).capturedMessages)).Sublist
      (sortByOrder (runPasses platform passes initState).capturedMessages) :=
    dedupByContentAux_sublist _ []
  have hmidpair : ((dedupByContent (sortByOrder
        (runPasses platform passes initState).capturedMessages)).map
      (fun m => m.order)).Pairwise (· < ·) := by
    refine (List.pairwise_map).mpr ?_
    refine List.Pairwise.sublist hsub ?_
    rw [hsort]
    exact hpair
  refine ⟨?_, hmidpair, ?_, hsub⟩
  · rw [processMessages, renumber_orders]
    have hlen : ∀ l : List Msg, (renumber l).length = l.length := by
      intro l
      have h1 := renumber_orders l
      have h2 : ((renumber l).map (fun m => m.order)).length = (renumber l).length :=
        List.length_map _ _
      rw [h1, List.length_range] at h2
      omega
    rw [hlen]
  · rw [processMessages]
    simp only [renumber]
    exact mapIdx_content (fun i msg => { msg with order := i, rawHtml := none })
      (fun _ _ => rfl) _

/- ### Claim C1: one message per fingerprint / per content hash -/

/-- Instrumented variant of `capturePassStep` that additionally records,
in order, the fingerprint of every element whose message was retained.
The state component follows `capturePassStep` branch for branch. -/
def capturePassStepFP (platform : Platform) (p : CaptureState × List String)
    (el : DomNode) : CaptureState × List String :=
  let st := p.1
  let hash := hashElement el
  if st.seenMessageHashes.contains hash then p
  else
    let st' := { st with seenMessageHashes := st.seenMessageHashes ++ [hash] }
    let message := extractMessage el platform st'.capturedMessages.length
    if 0 < (jsTrim message.content).length then
      ({ st' with capturedMessages := st'.capturedMessages ++ [message] }, p.2 ++ [hash])
    else (st', p.2)

/-- Instrumented capture pass over an element list. -/
def captureVisibleFP (platform : Platform) (p : CaptureState × List String)
    (els : List DomNode) : CaptureState × List String :=
  els.foldl (capturePassStepFP platform) p

/-- Instrumented run over a sequence of capture passes. -/
def runPassesFP (platform : Platform) (passes : List (List DomNode))
    (p : CaptureState × List String) : CaptureState × List String :=
  passes.foldl (captureVisibleFP platform) p

/-- The instrumented step projects to the actual step. -/
theorem capturePassStepFP_fst (platform : Platform) (p : CaptureState × List String)
    (el : DomNode) :
    (capturePassStepFP platform p el).1 = capturePassStep platform p.1 el := by
  simp only [capturePassStepFP, capturePassStep]
  split
  · rfl
  · split <;> rfl

/-- The instrumented run projects to the actual run. -/
theorem runPassesFP_fst (platform : Platform) (passes : List (List DomNode))
    (p : CaptureState × List String) :
    (runPassesFP platform passes p).1 = runPasses platform passes p.1 := by
  induction passes generalizing p with
  | nil => rfl
  | cons els rest ih =>
    simp only [runPassesFP, runPasses, List.foldl_cons]
    rw [← runPasses, ← runPassesFP, ih]
    congr 1
    clear ih
    induction els generalizing p with
    | nil => rfl
    | cons el els ih2 =>
      simp only [captureVisibleFP, captureVisible, List.foldl_cons]
      rw [← captureVisible, ← captureVisibleFP, ih2, capturePassStepFP_fst]

/-- Invariant of the instrumented run: the retained fingerprints are
pairwise distinct, count exactly the accumulated messages, and are all in
the seen-set. -/
theorem capturePassStepFP_inv (platform : Platform) (p : CaptureState × List String)
    (el : DomNode)
    (hinv : p.2.Nodup ∧ p.2.length = p.1.capturedMessages.length ∧
      ∀ h ∈ p.2, h ∈ p.1.seenMessageHashes) :
    (capturePassStepFP platform p el).2.Nodup ∧
    (capturePassStepFP platform p el).2.length
      = (capturePassStepFP platform p el).1.capturedMessages.length ∧
    ∀ h ∈ (capturePassStepFP platform p el).2,
      h ∈ (capturePassStepFP platform p el).1.seenMessageHashes := by
  obtain ⟨hnd, hlen, hsub⟩ := hinv
  simp only [capturePassStepFP]
  split
  · exact ⟨hnd, hlen, hsub⟩
  · rename_i hnew
    have hnotmem : hashElement el ∉ p.1.seenMessageHashes := by simpa using hnew
    split
    · refine ⟨?_, ?_, ?_⟩
      · rw [List.nodup_append]
        refine ⟨hnd, List.nodup_singleton _, ?_⟩
        intro h hh hmem
        simp only [List.mem_singleton] at hmem
        subst hmem
        exact hnotmem (hsub _ hh)
      · simp [hlen]
      · intro h hh
        rcases List.mem_append.mp hh with h1 | h1
        · exact List.mem_append_left _ (hsub _ h1)
        · exact List.mem_append_right _ h1
    · refine ⟨hnd, by simpa using hlen, ?_⟩
      intro h hh
      exact List.mem_append_left _ (hsub _ hh)

/-- The invariant holds after the instrumented run over any pass
sequence. -/
theorem runPassesFP_inv (platform : Platform) (passes : List (List DomNode))
    (p : CaptureState × List String)
    (hinv : p.2.Nodup ∧ p.2.length = p.1.capturedMessages.length ∧
      ∀ h ∈ p.2, h ∈ p.1.seenMessageHashes) :
    (runPassesFP platform passes p).2.Nodup ∧
    (runPassesFP platform passes p).2.length
      = (runPassesFP platform passes p).1.capturedMessages.length ∧
    ∀ h ∈ (runPassesFP platform passes p).2,
      h ∈ (runPassesFP platform passes p).1.seenMessageHashes := by
  induction passes generalizing p with
  | nil => exact hinv
  | cons els rest ih =>
    refine ih (captureVisibleFP platform p els) ?_
    clear ih
    induction els generalizing p with
    | nil => exact hinv
    | cons el els ih2 =>
      exact ih2 (capturePassStepFP platform p el) (capturePassStepFP_inv platform p el hinv)

/-- Output content hashes of the deduplication pass: pairwise distinct
and disjoint from the already-recorded hash set. -/
theorem dedupByContentAux_hashes (l : List Msg) :
    ∀ seen : List String,
      ((dedupByContentAux seen l).map fun m => hashTextContent m.content).Nodup ∧
      ∀ h ∈ (dedupByContentAux seen l).map (fun m => hashTextContent m.content),
        h ∉ seen := by
  induction l with
  | nil => intro seen; simp [dedupByContentAux]
  | cons x xs ih =>
    intro seen
    simp only [dedupByContentAux]
    split
    · rename_i hcond
      obtain ⟨ihn, ihs⟩ := ih (seen ++ [hashTextContent x.content])
      simp only [List.map_cons]
      refine ⟨List.nodup_cons.mpr ⟨?_, ihn⟩, ?_⟩
      · intro hmem
        exact (ihs _ hmem) (List.mem_append_right _ (by simp))
      · intro h hh
        rcases List.mem_cons.mp hh with h1 | h1
        · subst h1
          exact hcond.1
        · intro hs
          exact ihs _ h1 (List.mem_append_left _ hs)
    · exact ih seen

/-- C1: over every sequence of capture passes (with arbitrary repetition
of elements, as under virtualization re-renders), `captureVisibleMessages`
skips any element whose fingerprint is already in the seen-set; the
accumulated messages correspond one-to-one to pairwise-distinct
fingerprints; and the content hashes of the finalized `processMessages`
output are pairwise distinct, so the final output contains exactly one
message per retained fingerprint and per distinct content hash. -/
theorem capture_dedup_invariant (platform : Platform) (passes : List (List DomNode)) :
    (∀ (st : CaptureState) (el : DomNode),
      st.seenMessageHashes.contains (hashElement el) = true →
      capturePassStep platform st el = st) ∧
    (runPassesFP platform passes (initState, [])).1 = runPasses platform passes initState ∧
    (runPassesFP platform passes (initState, [])).2.Nodup ∧
    (runPassesFP platform passes (initState, [])).2.length
      = (runPasses platform passes initState).capturedMessages.length ∧
    ((processMessages (runPasses platform passes initState).capturedMessages).map
      (fun m => hashTextContent m.content)).Nodup := by
  have hproj := runPassesFP_fst platform passes (initState, [])
  have hinv := runPassesFP_inv platform passes (initState, [])
    (by refine ⟨List.nodup_nil, rfl, ?_⟩; intro h hh; simp at hh)
  refine ⟨?_, hproj, hinv.1, by rw [← hproj]; exact hinv.2.1, ?_⟩
  · intro st el h
    simp only [capturePassStep]
    rw [if_pos h]
  · rw [processMessages]
    have hmap : (renumber (dedupByContent (sortByOrder
          (runPasses platform passes initState).capturedMessages))).map
        (fun m => hashTextContent m.content)
        = (dedupByContent (sortByOrder
            (runPasses platform passes initState).capturedMessages)).map
          (fun m => hashTextContent m.content) := by
      have hc : (renumber (dedupByContent (sortByOrder
            (runPasses platform passes initState).capturedMessages))).map
          (fun m => m.content)
          = (dedupByContent (sortByOrder
              (runPasses platform passes initState).capturedMessages)).map
            (fun m => m.content) := by
        simp only [renumber]
        exact mapIdx_content (fun i msg => { msg with order := i, rawHtml := none })
          (fun _ _ => rfl) _
      have e1 := congrArg (List.map hashTextContent) hc
      simpa [List.map_map, Function.comp] using e1
    rw [hmap]
    exact (dedupByContentAux_hashes _ []).1

/-- Session state with an already-seen fingerprint for the C1 witness. -/
def c1SeenState : CaptureState :=
  { capturedMessages := [], seenMessageHashes := ["id_m1"], scrollAttempts := 0,
    isCapturing := true }

/-- C1 (witness): the skip clause applied at a concrete state that has
already seen fingerprint `id_m1` and an element carrying that
fingerprint. -/
theorem capture_dedup_invariant_witness :
    c1SeenState.seenMessageHashes.contains (hashElement c9Full) = true ∧
    capturePassStep emptyPlatform c1SeenState c9Full = c1SeenState :=
  ⟨by decide,
    (capture_dedup_invariant emptyPlatform []).1 c1SeenState c9Full (by decide)⟩

/- ### Claim C8: progress monotonicity and bounds -/

/-- The phase-1 progress formula is monotone in the iteration count. -/
theorem phase1Progress_mono {i j : Nat} (hij : i ≤ j) :
    phase1Progress i ≤ phase1Progress j := by
  unfold phase1Progress
  have h : (i : ℚ) ≤ (j : ℚ) := by exact_mod_cast hij
  have hd : (0 : ℚ) < (maxScrollAttempts : ℚ) := by norm_num [maxScrollAttempts]
  gcongr

/-- The phase-1 progress values lie within 0..100. -/
theorem phase1Progress_bounds (i : Nat) :
    0 ≤ phase1Progress i ∧ phase1Progress i ≤ 100 := by
  unfold phase1Progress
  constructor
  · apply le_min (by norm_num)
    positivity
  · exact le_trans (min_le_left _ _) (by norm_num)

/-- The phase-2 progress formula is monotone when `totalScrolled` grows
and the (positive) scroll height does not. -/
theorem phase2Progress_mono {ts1 ts2 : ℚ} {H1 H2 : Int} (hts : ts1 ≤ ts2) (h0 : 0 ≤ ts1)
    (hH : H2 ≤ H1) (hH2 : 0 < H2) :
    phase2Progress ts1 H1 ≤ phase2Progress ts2 H2 := by
  unfold phase2Progress
  have h1 : (0 : ℚ) < (H2 : ℚ) := by exact_mod_cast hH2
  have h2 : ((H2 : ℚ)) ≤ (H1 : ℚ) := by exact_mod_cast hH
  have h3 : 0 ≤ ts2 := le_trans h0 hts
  gcongr

/-- The phase-2 progress values lie within 0..100 (indeed 50..95) for
non-negative scrolled distance and positive height. -/
theorem phase2Progress_bounds {ts : ℚ} {H : Int} (h0 : 0 ≤ ts) (hH : 0 < H) :
    0 ≤ phase2Progress ts H ∧ phase2Progress ts H ≤ 100 := by
  unfold phase2Progress
  have h1 : (0 : ℚ) < (H : ℚ) := by exact_mod_cast hH
  constructor
  · have : (0 : ℚ) ≤ min 45 (ts / (H : ℚ) * 45) := by
      apply le_min (by norm_num)
      positivity
    linarith
  · have : min 45 (ts / (H : ℚ) * 45) ≤ 45 := min_le_left _ _
    linarith

/-- Within a phase-1 run, the emitted progress log is monotone
non-decreasing and stays within 0..100, for every environment. -/
theorem phase1Go_log (env : Nat → P1Obs) :
    ∀ (remaining it : Nat) (pH pT : Int) (sc : Nat) (log : List ℚ),
      log.Chain' (· ≤ ·) →
      (∀ x ∈ log, x ≤ phase1Progress it) →
      (∀ x ∈ log, 0 ≤ x ∧ x ≤ 100) →
      (phase1Go env remaining it pH pT sc log).progressLog.Chain' (· ≤ ·) ∧
      ∀ x ∈ (phase1Go env remaining it pH pT sc log).progressLog, 0 ≤ x ∧ x ≤ 100 := by
  intro remaining
  induction remaining with
  | zero =>
    intro it pH pT sc log hchain _ hbnd
    exact ⟨hchain, hbnd⟩
  | succ n ih =>
    intro it pH pT sc log hchain hle hbnd
    have hl : (if (it + 1) % 10 = 0 then log ++ [phase1Progress (it + 1)] else log).Chain'
          (· ≤ ·) ∧
        (∀ x ∈ (if (it + 1) % 10 = 0 then log ++ [phase1Progress (it + 1)] else log),
          x ≤ phase1Progress (it + 1)) ∧
        (∀ x ∈ (if (it + 1) % 10 = 0 then log ++ [phase1Progress (it + 1)] else log),
          0 ≤ x ∧ x ≤ 100) := by
      split
      · refine ⟨List.Chain'.append hchain (List.chain'_singleton _) ?_, ?_, ?_⟩
        · intro x hx y hy
          simp only [List.head?_cons, Option.mem_some_iff] at hy
          subst hy
          exact le_trans (hle x (List.mem_of_mem_getLast? hx))
            (phase1Progress_mono (Nat.le_succ it))
        · intro x hx
          rcases List.mem_append.mp hx with h | h
          · exact le_trans (hle x h) (phase1Progress_mono (Nat.le_succ it))
          · simp only [List.mem_singleton] at h
            subst h
            exact le_refl _
        · intro x hx
          rcases List.mem_append.mp hx with h | h
          · exact hbnd x h
          · simp only [List.mem_singleton] at h
            subst h
            exact phase1Progress_bounds _
      · exact ⟨hchain,
          fun x hx => le_trans (hle x hx) (phase1Progress_mono (Nat.le_succ it)), hbnd⟩
    simp only [phase1Go]
    split
    · exact ⟨hchain, hbnd⟩
    · split
      · split
        · exact ⟨hl.1, hl.2.2⟩
        · split
          · exact ⟨hl.1, hl.2.2⟩
          · exact ih (it + 1) _ _ _ _ hl.1 hl.2.1 hl.2.2
      · exact ih (it + 1) _ _ _ _ hl.1 hl.2.1 hl.2.2

/-- Within a phase-2 run, if every observed scroll height is positive and
heights never grow between iterations, the emitted progress log is
monotone non-decreasing and stays within 0..100. -/
theorem phase2Go_log (platform : Platform) (env : Nat → P2Obs) (scrollStep : ℚ)
    (hstep : 0 ≤ scrollStep)
    (hpos : ∀ k, 0 < (env k).scrollHeight)
    (hdec : ∀ k, (env (k + 1)).scrollHeight ≤ (env k).scrollHeight) :
    ∀ (fuel k : Nat) (ts : ℚ) (pc sc : Nat) (st : CaptureState) (log : List ℚ),
      0 ≤ ts →
      log.Chain' (· ≤ ·) →
      (∀ x ∈ log, x ≤ phase2Progress ts ((env k).scrollHeight)) →
      (∀ x ∈ log, 0 ≤ x ∧ x ≤ 100) →
      (phase2Go platform env scrollStep fuel k ts pc sc st log).progressLog.Chain' (· ≤ ·) ∧
      ∀ x ∈ (phase2Go platform env scrollStep fuel k ts pc sc st log).progressLog,
        0 ≤ x ∧ x ≤ 100 := by
  intro fuel
  induction fuel with
  | zero =>
    intro k ts pc sc st log _ hchain _ hbnd
    exact ⟨hchain, hbnd⟩
  | succ n ih =>
    intro k ts pc sc st log hts hchain hle hbnd
    have hts' : 0 ≤ ts + scrollStep := by linarith
    have hmono : phase2Progress ts ((env k).scrollHeight)
        ≤ phase2Progress (ts + scrollStep) ((env k).scrollHeight) :=
      phase2Progress_mono (by linarith) hts (le_refl _) (hpos k)
    have hl : (log ++ [phase2Progress (ts + scrollStep) ((env k).scrollHeight)]).Chain'
          (· ≤ ·) ∧
        (∀ x ∈ log ++ [phase2Progress (ts + scrollStep) ((env k).scrollHeight)],
          x ≤ phase2Progress (ts + scrollStep) ((env (k + 1)).scrollHeight)) ∧
        (∀ x ∈ log ++ [phase2Progress (ts + scrollStep) ((env k).scrollHeight)],
          0 ≤ x ∧ x ≤ 100) := by
      have hnext : phase2Progress (ts + scrollStep) ((env k).scrollHeight)
          ≤ phase2Progress (ts + scrollStep) ((env (k + 1)).scrollHeight) :=
        phase2Progress_mono (le_refl _) hts' (hdec k) (hpos (k + 1))
      refine ⟨List.Chain'.append hchain (List.chain'_singleton _) ?_, ?_, ?_⟩
      · intro x hx y hy
        simp only [List.head?_cons, Option.mem_some_iff] at hy
        subst hy
        exact le_trans (hle x (List.mem_of_mem_getLast? hx)) hmono
      · intro x hx
        rcases List.mem_append.mp hx with h | h
        · exact le_trans (hle x h) (le_trans hmono hnext)
        · simp only [List.mem_singleton] at h
          subst h
          exact hnext
      · intro x hx
        rcases List.mem_append.mp hx with h | h
        · exact hbnd x h
        · simp only [List.mem_singleton] at h
          subst h
          exact phase2Progress_bounds hts' (hpos k)
    simp only [phase2Go]
    split
    · exact ⟨hchain, hbnd⟩
    · split
      · exact ⟨hl.1, hl.2.2⟩
      · split
        · split
          · exact ⟨hl.1, hl.2.2⟩
          · exact ih (k + 1) (ts + scrollStep) _ _ _ _ hts' hl.1 hl.2.1 hl.2.2
        · exact ih (k + 1) (ts + scrollStep) _ _ _ _ hts' hl.1 hl.2.1 hl.2.2

/-- C8 (amended): within phase 1 the progress values passed to successive
progress-callback invocations — `min(45, 2 + (iteration/300)*43)` at
every 10th iteration — are monotone non-decreasing and stay within 0..100
for every host-page behaviour; within phase 2 the values
`50 + min(45, (totalScrolled/scrollHeight)*45)` stay monotone
non-decreasing and within 0..100 provided the observed scroll height is
positive and does not increase between iterations (a growing scroll
height can decrease the reported value). -/
theorem progress_monotone_amended :
    (∀ env : Nat → P1Obs,
      (scrollToAbsoluteTop env).progressLog.Chain' (· ≤ ·) ∧
      ∀ x ∈ (scrollToAbsoluteTop env).progressLog, 0 ≤ x ∧ x ≤ 100) ∧
    (∀ (platform : Platform) (e : P2Env) (fuel : Nat) (st : CaptureState),
      (∀ k, 0 < (e.obs k).scrollHeight) →
      (∀ k, (e.obs (k + 1)).scrollHeight ≤ (e.obs k).scrollHeight) →
      (scrollAndCaptureAll platform e fuel st).progressLog.Chain' (· ≤ ·) ∧
      ∀ x ∈ (scrollAndCaptureAll platform e fuel st).progressLog, 0 ≤ x ∧ x ≤ 100) := by
  constructor
  · intro env
    exact phase1Go_log env maxScrollAttempts 0 (-1) (-1) 0 [] List.chain'_nil
      (by intro x hx; simp at hx) (by intro x hx; simp at hx)
  · intro platform e fuel st hpos hdec
    have hstep : (0 : ℚ) ≤ max 200 ((e.clientHeight0 : ℚ) * (3 / 5)) :=
      le_trans (by norm_num) (le_max_left _ _)
    exact phase2Go_log platform e.obs _ hstep hpos hdec fuel 0 0 0 0 _ [] (le_refl 0)
      List.chain'_nil (by intro x hx; simp at hx) (by intro x hx; simp at hx)

/-- C8 (witness): the phase-2 clause of the amended theorem applied to the
concrete scenario-A environment (constant positive scroll height). -/
theorem progress_monotone_amended_witness :
    (scrollAndCaptureAll emptyPlatform scenarioAP2Env 5 initState).progressLog.Chain'
      (· ≤ ·) :=
  (progress_monotone_amended.2 emptyPlatform scenarioAP2Env 5 initState
    (fun _ => by show (0 : Int) < 1000; decide)
    (fun _ => by show (1000 : Int) ≤ 1000; decide)).1

/-- Host page whose scroll height grows between the two observed
iterations while nothing else changes. -/
def c8Env : P2Env :=
  { document0 := .elem "main" [] []
    clientHeight0 := 100
    obs := fun k =>
      { capturing := true, document := .elem "main" [] [], scrollTop := 0,
        clientHeight := 100, scrollHeight := if k = 0 then 1000 else 1000000,
        documentBottom1 := .elem "main" [] [], documentBottom2 := .elem "main" [] [] } }

/-- C8 (counterexample): on the concrete page `c8Env`, whose scroll height
grows from 1000 to 1000000 between iterations, the phase-2 progress log
decreases from 59 to 50.018: the progress passed to the callback is not
monotone non-decreasing under a scroll height that changes between
iterations. -/
theorem progress_not_monotone_counterexample :
    ¬ (scrollAndCaptureAll emptyPlatform c8Env 2 initState).progressLog.Chain' (· ≤ ·) := by
  have hred : (scrollAndCaptureAll emptyPlatform c8Env 2 initState).progressLog
      = [phase2Progress (0 + max 200 ((100 : ℚ) * (3 / 5))) 1000,
         phase2Progress (0 + max 200 ((100 : ℚ) * (3 / 5)) + max 200 ((100 : ℚ) * (3 / 5)))
           1000000] := rfl
  rw [hred]
  intro hch
  have := (List.chain'_cons.mp hch).1
  rw [show (max 200 ((100 : ℚ) * (3 / 5))) = 200 from by norm_num [max_def]] at this
  norm_num [phase2Progress, min_def] at this
